import Mathlib

/-!
Shallow embedding of the sosistab listener actor
(`src/lib/sosistab/src/listener.rs`, `ListenerActor::run` and `TokenInfo`),
together with spec-modelled versions of the collaborator modules that are not
part of the provided sources (the session table, the legacy AEAD, the recent
packet filter and the fallthrough rate limiter).

Machine data (keys, addresses, nonces) is modelled as `Nat`; AEAD encryption is
modelled symbolically: a ciphertext remembers the key it was encrypted under and
decryption succeeds exactly under that key.
-/

namespace Sosistab

/-- Association-list get: first binding of a key, if any. -/
def alget {α β : Type} [DecidableEq α] (k : α) : List (α × β) → Option β
  | [] => none
  | (a, b) :: rest => if a = k then some b else alget k rest

/-- Association-list set: overwrite the first binding, or prepend a new one. -/
def alset {α β : Type} [DecidableEq α] (k : α) (v : β) : List (α × β) → List (α × β)
  | [] => [(k, v)]
  | (a, b) :: rest => if a = k then (k, v) :: rest else (a, b) :: alset k v rest

/-- Association-list removal of every binding of a key. -/
def alrem {α β : Type} [DecidableEq α] (k : α) : List (α × β) → List (α × β)
  | [] => []
  | (a, b) :: rest => if a = k then alrem k rest else (a, b) :: alrem k rest

/-- `TokenInfo` from `listener.rs`: session key, issue time in milliseconds and
negotiated version, serialized then AEAD-encrypted under the listener-local
`token_key` to form the resume token. -/
structure TokenInfo where
  sess_key : Nat
  init_time_ms : Nat
  version : Nat
deriving DecidableEq, Repr

/-- Modelled from the spec: a `crypt::LegacyAEAD` ciphertext of a serialized
`TokenInfo` (the `crypt` module is not among the provided sources). The
symbolic ciphertext records the encryption key, the random nonce drawn by
`TokenInfo::encrypt`, and the plaintext; decryption succeeds exactly under the
matching key, modelling AEAD authenticity, with the bincode round trip folded
in. -/
structure EncToken where
  key : Nat
  nonce : Nat
  payload : TokenInfo
deriving DecidableEq, Repr

/-- `TokenInfo::encrypt` from `listener.rs`: serialize with bincode, then
AEAD-encrypt under `key` with a freshly drawn random nonce. -/
def TokenInfo.encrypt (ti : TokenInfo) (key : Nat) (nonce : Nat) : EncToken :=
  ⟨key, nonce, ti⟩

/-- `TokenInfo::decrypt` from `listener.rs`: AEAD-decrypt under `key`, then
bincode-deserialize; `none` on authentication failure. -/
def TokenInfo.decrypt (key : Nat) (e : EncToken) : Option TokenInfo :=
  if e.key = key then some e.payload else none

/-- The `protocol::HandshakeFrame` variants the listener dispatches on; other
multiplex variants are opaque to it and collapsed into `Other`. -/
inductive HandshakeFrame where
  | ClientHello (long_pk : Nat) (eph_pk : Nat) (version : Nat)
  | ServerHello (long_pk : Nat) (eph_pk : Nat) (resume_token : EncToken)
  | ClientResume (resume_token : EncToken) (shard_id : Nat)
  | Other (tag : Nat)
deriving DecidableEq, Repr

/-- Modelled from the spec: a wire buffer as produced by
`crypt::LegacyAEAD::pad_encrypt_v1` (the `crypt` module is not among the
provided sources). An `enc` buffer records the AEAD key, the random nonce, the
pad-to length and the single handshake frame of the payload; `junk` is any
undecryptable buffer. Distinct nonces model distinct ciphertext bytes for the
same plaintext frame. -/
inductive Buffer where
  | enc (key : Nat) (nonce : Nat) (padTo : Nat) (frame0 : HandshakeFrame)
  | junk (tag : Nat)
deriving DecidableEq, Repr

/-- Modelled from the spec: `crypt::LegacyAEAD::pad_decrypt_v1`, succeeding
exactly on buffers encrypted under the given key. -/
def padDecryptV1 (k : Nat) : Buffer → Option HandshakeFrame
  | .enc key _ _ f => if key = k then some f else none
  | .junk _ => none

/-- Modelled from the spec: `crypt::triple_ecdh(server_long_sk, server_eph_sk,
client_long_pk, client_eph_pk)`, a symbolic injective combination of the four
key inputs. -/
def tripleEcdh (a b c d : Nat) : Nat :=
  Nat.pair (Nat.pair a b) (Nat.pair c d)

/-- Modelled from the spec: the public key of an X25519 secret. -/
def pubOf (sk : Nat) : Nat := sk + 1

/-- Modelled from the spec: the `crypt::UP_KEY` blake3 domain tag. -/
def UP_KEY : Nat := 0

/-- Modelled from the spec: the `crypt::DN_KEY` blake3 domain tag. -/
def DN_KEY : Nat := 1

/-- Modelled from the spec: `blake3::keyed_hash(tag, msg)` as a symbolic
injective pairing. -/
def keyedHash (tag msg : Nat) : Nat :=
  Nat.pair tag msg

/-- One session-table entry: the session's bounded input queue (capacity 1000)
and its `ShardedAddrs` map from shard id to remote address. -/
structure Entry where
  queue : List Buffer
  addrs : List (Nat × Nat)
deriving DecidableEq, Repr

/-- Modelled from the spec: the `SessionTable` of `listener/table.rs` (not
among the provided sources): `by_token` maps resume tokens to entries and
`by_addr` maps remote addresses to resume tokens. -/
structure SessionTable where
  byToken : List (EncToken × Entry)
  byAddr : List (Nat × EncToken)
deriving DecidableEq, Repr

/-- Modelled from the spec: `SessionTable::lookup(addr)` goes `by_addr` then
`by_token`; here it returns the resume token of the live session, if any. -/
def SessionTable.lookupTok (t : SessionTable) (addr : Nat) : Option EncToken :=
  match alget addr t.byAddr with
  | none => none
  | some tok => if (alget tok t.byToken).isSome then some tok else none

/-- Non-blocking `try_send` of a buffer into a session's bounded input queue:
append when below capacity 1000, silently drop when full. -/
def SessionTable.deliver (t : SessionTable) (tok : EncToken) (b : Buffer) : SessionTable :=
  match alget tok t.byToken with
  | none => t
  | some e =>
      let e2 : Entry :=
        { e with queue := if e.queue.length < 1000 then e.queue ++ [b] else e.queue }
      { t with byToken := alset tok e2 t.byToken }

/-- Modelled from the spec: `SessionTable::rebind(addr, shard_id, tok)`: when
the token has a session, set its `ShardedAddrs[shard_id] = addr`, point
`by_addr[addr]` at the token and return `true`; otherwise return `false`
without change. -/
def SessionTable.rebind (t : SessionTable) (addr shard : Nat) (tok : EncToken) :
    Bool × SessionTable :=
  match alget tok t.byToken with
  | none => (false, t)
  | some e =>
      let e2 : Entry := { e with addrs := alset shard addr e.addrs }
      (true,
        { byToken := alset tok e2 t.byToken,
          byAddr := alset addr tok t.byAddr })

/-- Modelled from the spec: `SessionTable::new_sess`, inserting a fresh entry
under the token. -/
def SessionTable.newSess (t : SessionTable) (tok : EncToken) (e : Entry) : SessionTable :=
  { t with byToken := alset tok e t.byToken }

/-- Modelled from the spec: `SessionTable::delete(tok)`: drop the token from
`by_token` and purge every address bound to it from `by_addr`. -/
def SessionTable.delete (t : SessionTable) (tok : EncToken) : SessionTable :=
  { byToken := alrem tok t.byToken,
    byAddr := (t.byAddr.filter (fun p => !(p.2 = tok : Bool))) }

/-- Modelled from the spec: `RECENT_FILTER.lock().check(&buffer)` of the
`recfilter` module (not among the provided sources): returns `true` and
records the buffer when it has not been seen, `false` otherwise. -/
def recentCheck (filter : List Buffer) (b : Buffer) : Bool × List Buffer :=
  if b ∈ filter then (false, filter) else (true, b :: filter)

/-- Modelled from the spec: `fallthrough_limiter.check_key(&addr)` with
`Quota::per_minute(5)`: within the current window, permit the first five
checks for an address and refuse later ones. -/
def limiterCheck (lim : List (Nat × Nat)) (addr : Nat) : Bool × List (Nat × Nat) :=
  let used := (alget addr lim).getD 0
  if used < 5 then (true, alset addr (used + 1) lim) else (false, lim)

/-- Immutable listener-actor parameters: the cookie key sequences, the
process-local random `token_key`, the long-term secret, the current wall
clock, and whether the consumer has dropped the accept side. -/
structure ListenerCfg where
  c2s : List Nat
  s2c : List Nat
  tokenKey : Nat
  longSk : Nat
  now : Nat
  acceptClosed : Bool
deriving DecidableEq, Repr

/-- Mutable listener-actor state: session table, recent-filter seen set,
fallthrough-limiter counters, and a counter supplying fresh random draws
(ephemeral secrets and nonces). -/
structure ListenerState where
  table : SessionTable
  filter : List Buffer
  limiter : List (Nat × Nat)
  freshCtr : Nat
deriving DecidableEq, Repr

/-- Draw one fresh random value (ephemeral secret or nonce). -/
def freshDraw (st : ListenerState) : Nat × ListenerState :=
  (st.freshCtr, { st with freshCtr := st.freshCtr + 1 })

/-- The derived data a newly created `Session` is configured with. -/
structure SessCfg where
  upKey : Nat
  dnKey : Nat
  version : Nat
deriving DecidableEq, Repr

/-- Observable actions of the listener: a reply buffer written to the socket,
a session handed to the accept queue, and the debug-logged silent rebind of an
existing session. -/
inductive Output where
  | sentReply (addr : Nat) (wire : Buffer)
  | emitSession (token : EncToken) (cfg : SessCfg)
  | rebound (token : EncToken) (addr : Nat)
deriving DecidableEq, Repr

/-- Control flow out of one `match handshake[0]` arm: continue the candidate
key loop, break out of it, or terminate the whole actor (the `?` on
`accepted.try_send(session).ok()`). -/
inductive Ctl where
  | cont
  | brk
  | term
deriving DecidableEq, Repr

/-- Result of one `match handshake[0]` arm. -/
structure HRes where
  st : ListenerState
  out : List Output
  ctl : Ctl
deriving DecidableEq, Repr

/-- The `match handshake[0]` dispatch of `ListenerActor::run` (listener.rs
lines 180-348): version-check and reply for `ClientHello`, token decrypt and
rebind-or-create for `ClientResume`, discard for anything else. -/
def handleFrame (cfg : ListenerCfg) (s2cKey : Nat) (addr : Nat) (f : HandshakeFrame)
    (st : ListenerState) : HRes :=
  match f with
  | .ClientHello long_pk eph_pk version =>
      if version ≠ 1 ∧ version ≠ 2 ∧ version ≠ 3 then
        ⟨st, [], .brk⟩
      else
        let (myEphSk, st) := freshDraw st
        let (tokNonce, st) := freshDraw st
        let token :=
          TokenInfo.encrypt
            ⟨tripleEcdh cfg.longSk myEphSk long_pk eph_pk, cfg.now, version⟩
            cfg.tokenKey tokNonce
        let reply := HandshakeFrame.ServerHello (pubOf cfg.longSk) (pubOf myEphSk) token
        let (replyNonce, st) := freshDraw st
        ⟨st, [.sentReply addr (.enc s2cKey replyNonce 1000 reply)], .cont⟩
  | .ClientResume resume_token shard_id =>
      match TokenInfo.decrypt cfg.tokenKey resume_token with
      | none => ⟨st, [], .cont⟩
      | some tokinfo =>
          let (hit, rebound) := st.table.rebind addr shard_id resume_token
          if hit then
            ⟨{ st with table := rebound }, [.rebound resume_token addr], .cont⟩
          else
            let upKey := keyedHash UP_KEY tokinfo.sess_key
            let dnKey := keyedHash DN_KEY tokinfo.sess_key
            let entry : Entry := { queue := [], addrs := [(shard_id, addr)] }
            let t1 := st.table.newSess resume_token entry
            let t2 := (t1.rebind addr shard_id resume_token).2
            let st := { st with table := t2 }
            if cfg.acceptClosed then
              ⟨st, [], .term⟩
            else
              ⟨st, [.emitSession resume_token ⟨upKey, dnKey, tokinfo.version⟩], .cont⟩
  | _ => ⟨st, [], .cont⟩

/-- The candidate-key loop of `ListenerActor::run` (listener.rs lines
162-350): for each c2s cookie key, attempt `pad_decrypt_v1`; on success,
consult the recent filter, then dispatch the first frame. The boolean result
is `true` when the actor terminated. -/
def processKeys (cfg : ListenerCfg) (s2cKey : Nat) (addr : Nat) (b : Buffer) :
    List Nat → ListenerState → ListenerState × List Output × Bool
  | [], st => (st, [], false)
  | k :: rest, st =>
      match padDecryptV1 k b with
      | none => processKeys cfg s2cKey addr b rest st
      | some f =>
          let (isNew, filt) := recentCheck st.filter b
          let st1 := { st with filter := filt }
          if isNew then
            let r := handleFrame cfg s2cKey addr f st1
            match r.ctl with
            | .brk => (r.st, r.out, false)
            | .term => (r.st, r.out, true)
            | .cont =>
                let (st2, out2, t2) := processKeys cfg s2cKey addr b rest r.st
                (st2, r.out ++ out2, t2)
          else
            processKeys cfg s2cKey addr b rest st1

/-- Processing of one received `(buffer, addr)` item (listener.rs lines
151-350): deliver to a live session found by source address, consult the
fallthrough limiter, and fall through to the handshake decode path when
permitted. -/
def processItem (cfg : ListenerCfg) (st : ListenerState) (b : Buffer) (addr : Nat) :
    ListenerState × List Output × Bool :=
  let s2cKey := cfg.s2c.headD 0
  match st.table.lookupTok addr with
  | some tok =>
      let st1 := { st with table := st.table.deliver tok b }
      let (ok, lim) := limiterCheck st1.limiter addr
      let st2 := { st1 with limiter := lim }
      if ok then processKeys cfg s2cKey addr b cfg.c2s st2
      else (st2, [], false)
  | none => processKeys cfg s2cKey addr b cfg.c2s st

/-- The `for (buffer, addr) in items` loop of one `Evt::NewRecv` batch; the
actor stops processing the moment `accepted.try_send` fails. -/
def processItems (cfg : ListenerCfg) (st : ListenerState) :
    List (Buffer × Nat) → ListenerState × List Output × Bool
  | [] => (st, [], false)
  | (b, a) :: rest =>
      let (st1, out1, t1) := processItem cfg st b a
      if t1 then (st1, out1, true)
      else
        let (st2, out2, t2) := processItems cfg st1 rest
        (st2, out1 ++ out2, t2)

/-- Number of sessions handed to the accept queue in an output trace. -/
def countEmits (l : List Output) : Nat :=
  (l.filter fun o => match o with | .emitSession _ _ => true | _ => false).length

/-- Number of silent rebinds (debug-logged "rebound") in an output trace. -/
def countRebounds (l : List Output) : Nat :=
  (l.filter fun o => match o with | .rebound _ _ => true | _ => false).length

/-- Number of replies written to the socket in an output trace. -/
def countReplies (l : List Output) : Nat :=
  (l.filter fun o => match o with | .sentReply _ _ => true | _ => false).length

/-- The AEAD key a wire buffer is encrypted under (0 for junk). -/
def Buffer.keyOf : Buffer → Nat
  | .enc k _ _ _ => k
  | .junk _ => 0

/-- Whether a control-flow outcome terminates the actor. -/
def Ctl.isTerm : Ctl → Bool
  | .term => true
  | _ => false

/-- A reply output is keyed under the given s2c key; all other outputs are
unconstrained. -/
def replyKeyOk (s2cKey : Nat) : Output → Prop
  | .sentReply _ w => w.keyOf = s2cKey
  | _ => True

/-- A concrete `TokenInfo` used in the closed scenarios below. -/
def ti0 : TokenInfo := ⟨77, 500, 3⟩

/-- A concrete resume token: `ti0` encrypted under token key 9 with nonce 42. -/
def tok0 : EncToken := TokenInfo.encrypt ti0 9 42

/-- A concrete listener configuration: one c2s cookie key 5, one s2c cookie
key 6, token key 9, long-term secret 11, current time 1000, accept side
open. -/
def cfg0 : ListenerCfg := ⟨[5], [6], 9, 11, 1000, false⟩

/-- `cfg0` with the consumer having dropped the accept side. -/
def cfg0closed : ListenerCfg := ⟨[5], [6], 9, 11, 1000, true⟩

/-- The empty initial listener state. -/
def st0 : ListenerState := ⟨⟨[], []⟩, [], [], 0⟩

/-- A wire buffer carrying `ClientResume{tok0, shard 0}` encrypted under c2s
key 5 with the given nonce (distinct nonces model re-encryptions of the same
frame into distinct ciphertext bytes). -/
def bres (n : Nat) : Buffer := .enc 5 n 1000 (.ClientResume tok0 0)

/-- A listener state whose recent filter has already seen `bres 0`. -/
def stSeen0 : ListenerState := ⟨⟨[], []⟩, [bres 0], [], 0⟩

/-- A concrete session entry for `tok0` living at shard 0, address 3. -/
def entry0 : Entry := ⟨[], [(0, 3)]⟩

/-- A listener state with a live session for `tok0` at address 3. -/
def stWith0 : ListenerState := ⟨⟨[(tok0, entry0)], [(3, tok0)]⟩, [], [], 0⟩

/-- Seven buffers carrying the identical `ClientResume` frame from address 3,
as distinct ciphertexts. -/
def sevenResumes : List (Buffer × Nat) := (List.range 7).map (fun i => (bres i, 3))

/-- Frame dispatch never touches the recent filter: only the candidate-key
loop records buffers. -/
theorem handleFrame_filter (cfg : ListenerCfg) (s2cKey addr : Nat) (f : HandshakeFrame)
    (st : ListenerState) : (handleFrame cfg s2cKey addr f st).st.filter = st.filter := by
  cases f with
  | ClientHello lpk epk v =>
      by_cases h : v ≠ 1 ∧ v ≠ 2 ∧ v ≠ 3 <;> simp [handleFrame, h, freshDraw]
  | ClientResume tok sh =>
      simp only [handleFrame]
      cases TokenInfo.decrypt cfg.tokenKey tok with
      | none => rfl
      | some ti =>
          simp only []
          cases hr : st.table.rebind addr sh tok with
          | mk hit t2 =>
              cases hit <;> by_cases hc : cfg.acceptClosed <;> simp [hc]
  | ServerHello lpk epk tok => rfl
  | Other t => rfl

/-- A buffer already recorded in the recent filter is a no-op for the whole
candidate-key loop: every successful decrypt is rejected by the replay check
before any state change. -/
theorem processKeys_seen (cfg : ListenerCfg) (s2cKey addr : Nat) (b : Buffer)
    (keys : List Nat) (st : ListenerState) (hb : b ∈ st.filter) :
    processKeys cfg s2cKey addr b keys st = (st, [], false) := by
  induction keys with
  | nil => rfl
  | cons k rest ih =>
      simp only [processKeys]
      cases padDecryptV1 k b with
      | none => exact ih
      | some f =>
          simp only [recentCheck, if_pos hb]
          exact ih

/-- A buffer no candidate key decrypts is a no-op for the candidate-key
loop. -/
theorem processKeys_nodecrypt (cfg : ListenerCfg) (s2cKey addr : Nat) (b : Buffer)
    (keys : List Nat) (st : ListenerState)
    (hb : ∀ k ∈ keys, padDecryptV1 k b = none) :
    processKeys cfg s2cKey addr b keys st = (st, [], false) := by
  induction keys with
  | nil => rfl
  | cons k rest ih =>
      simp only [processKeys, hb k (List.mem_cons_self k rest)]
      exact ih fun k2 h2 => hb k2 (List.mem_cons_of_mem k h2)

/-- Processing a fresh buffer whose encryption key occurs among the candidate
keys reduces to one frame dispatch after the filter records the buffer; the
remaining keys contribute nothing (a second decrypt of the same buffer is
stopped by the replay check). -/
theorem processKeys_hit (cfg : ListenerCfg) (s2cKey addr k n p : Nat) (f : HandshakeFrame)
    (keys : List Nat) (st : ListenerState)
    (hk : k ∈ keys) (hb : Buffer.enc k n p f ∉ st.filter) :
    processKeys cfg s2cKey addr (.enc k n p f) keys st =
      ((handleFrame cfg s2cKey addr f
          { st with filter := Buffer.enc k n p f :: st.filter }).st,
       (handleFrame cfg s2cKey addr f
          { st with filter := Buffer.enc k n p f :: st.filter }).out,
       (handleFrame cfg s2cKey addr f
          { st with filter := Buffer.enc k n p f :: st.filter }).ctl.isTerm) := by
  induction keys with
  | nil => cases hk
  | cons k2 rest ih =>
      by_cases he : k = k2
      · subst he
        simp only [processKeys, padDecryptV1, if_pos rfl, recentCheck, if_neg hb]
        set st1 : ListenerState := { st with filter := Buffer.enc k n p f :: st.filter } with hst1
        cases hc : (handleFrame cfg s2cKey addr f st1).ctl with
        | brk => simp [hc, Ctl.isTerm]
        | term => simp [hc, Ctl.isTerm]
        | cont =>
            have hmem : Buffer.enc k n p f ∈ (handleFrame cfg s2cKey addr f st1).st.filter := by
              rw [handleFrame_filter]
              exact List.mem_cons_self _ _
            simp [hc, Ctl.isTerm,
              processKeys_seen cfg s2cKey addr _ rest _ hmem]
      · have hk2 : k ∈ rest := by
          cases hk with
          | head => exact absurd rfl he
          | tail _ h => exact h
        have hd : padDecryptV1 k2 (.enc k n p f) = none := by
          simp [padDecryptV1, he]
        simp only [processKeys, hd]
        exact ih hk2

/-- Setting a key in an association list makes it retrievable. -/
theorem alget_alset_self {α β : Type} [DecidableEq α] (k : α) (v : β) (l : List (α × β)) :
    alget k (alset k v l) = some v := by
  induction l with
  | nil => simp [alget, alset]
  | cons p rest ih =>
      cases p with
      | mk a b =>
          by_cases h : a = k
          · simp [alset, h, alget]
          · simp [alset, h, alget, ih]

/-- C1: a handshake buffer already recorded in the recent filter is rejected
right after the successful decrypt and before any state mutation, so the whole
candidate-key loop leaves the state unchanged and emits nothing; consequently
feeding the identical handshake buffer twice to the listener causes exactly
one session creation. -/
theorem c1_replay_exactly_one_session :
    (∀ (cfg : ListenerCfg) (s2cKey addr : Nat) (b : Buffer) (keys : List Nat)
        (st : ListenerState), b ∈ st.filter →
        processKeys cfg s2cKey addr b keys st = (st, [], false)) ∧
    countEmits (processItems cfg0 st0 [(bres 0, 3), (bres 0, 3)]).2.1 = 1 := by
  refine ⟨fun cfg s2cKey addr b keys st hb =>
    processKeys_seen cfg s2cKey addr b keys st hb, ?_⟩
  decide

/-- C1 witness: the replay no-op applied to the concrete seen state. -/
theorem c1_witness :
    processKeys cfg0 6 3 (bres 0) [5] stSeen0 = (stSeen0, [], false) :=
  c1_replay_exactly_one_session.1 cfg0 6 3 (bres 0) [5] stSeen0 (by decide)

/-- C2 counterexample: seven identical `ClientResume` frames (distinct
ciphertexts) from the same address for the same token cause exactly one
session creation but only 5 silent rebinds, not N−1 = 6: from the second frame
on, the source address maps to a live session, so the handshake path is gated
by the fallthrough limiter, which admits only 5 frames per window. -/
theorem c2_seven_resumes_counterexample :
    countEmits (processItems cfg0 st0 sevenResumes).2.1 = 1 ∧
    countRebounds (processItems cfg0 st0 sevenResumes).2.1 = 5 ∧
    ¬ countRebounds (processItems cfg0 st0 sevenResumes).2.1 = 7 - 1 := by
  decide

/-- C2 (amended): whenever the handshake path dispatches a `ClientResume`
whose token decrypts under `token_key` and is already present in the session
table, the listener performs a silent rebind — the token's shard address and
the address index are updated — emits no second session and sends no reply;
frames beyond the fallthrough quota never reach this dispatch, so N identical
frames in one burst cause exactly one creation and at most 5 silent
rebinds. -/
theorem c2_resume_idempotent (cfg : ListenerCfg) (s2cKey addr sh : Nat) (tok : EncToken)
    (st : ListenerState) (e : Entry) (ti : TokenInfo)
    (hdec : TokenInfo.decrypt cfg.tokenKey tok = some ti)
    (hmem : alget tok st.table.byToken = some e) :
    handleFrame cfg s2cKey addr (.ClientResume tok sh) st =
      ⟨{ st with table := (st.table.rebind addr sh tok).2 }, [.rebound tok addr], .cont⟩ ∧
    countEmits [Output.rebound tok addr] = 0 ∧
    alget tok (st.table.rebind addr sh tok).2.byToken =
      some ({ e with addrs := alset sh addr e.addrs }) ∧
    alget sh (alset sh addr e.addrs) = some addr ∧
    alget addr (st.table.rebind addr sh tok).2.byAddr = some tok := by
  refine ⟨?_, rfl, ?_, alget_alset_self sh addr e.addrs, ?_⟩
  · simp [handleFrame, hdec, SessionTable.rebind, hmem]
  · simp [SessionTable.rebind, hmem, alget_alset_self]
  · simp [SessionTable.rebind, hmem, alget_alset_self]

/-- C2 witness: the idempotent rebind applied to the concrete live-session
state. -/
theorem c2_witness :
    handleFrame cfg0 6 4 (.ClientResume tok0 1) stWith0 =
      ⟨{ stWith0 with table := (stWith0.table.rebind 4 1 tok0).2 },
        [.rebound tok0 4], .cont⟩ :=
  (c2_resume_idempotent cfg0 6 4 1 tok0 stWith0 entry0 ti0 (by decide) (by decide)).1

/-- C4: a buffer decrypting to a `ClientHello` whose version is outside
{1, 2, 3} produces no reply and no state change other than the recent-filter
record, and the candidate-key loop stops at that key: the result over
`k :: rest` equals the result over `[k]` for every `rest`. -/
theorem c4_bad_version_breaks (cfg : ListenerCfg) (s2cKey addr k n p lpk epk v : Nat)
    (rest : List Nat) (st : ListenerState)
    (hv : v ≠ 1 ∧ v ≠ 2 ∧ v ≠ 3)
    (hfresh : Buffer.enc k n p (.ClientHello lpk epk v) ∉ st.filter) :
    processKeys cfg s2cKey addr (.enc k n p (.ClientHello lpk epk v)) (k :: rest) st =
      ({ st with filter := Buffer.enc k n p (.ClientHello lpk epk v) :: st.filter },
        [], false) ∧
    processKeys cfg s2cKey addr (.enc k n p (.ClientHello lpk epk v)) (k :: rest) st =
      processKeys cfg s2cKey addr (.enc k n p (.ClientHello lpk epk v)) [k] st := by
  have h1 : ∀ tail : List Nat,
      processKeys cfg s2cKey addr (.enc k n p (.ClientHello lpk epk v)) (k :: tail) st =
        ({ st with filter := Buffer.enc k n p (.ClientHello lpk epk v) :: st.filter },
          [], false) := by
    intro tail
    simp [processKeys, padDecryptV1, recentCheck, hfresh, handleFrame, hv]
  exact ⟨h1 rest, (h1 rest).trans (h1 []).symm⟩

/-- C4 witness: a version-99 hello at a concrete input. -/
theorem c4_witness :
    processKeys cfg0 6 3 (.enc 5 2 1000 (.ClientHello 100 200 99)) [5] st0 =
      ({ st0 with filter := [Buffer.enc 5 2 1000 (.ClientHello 100 200 99)] },
        [], false) :=
  (c4_bad_version_breaks cfg0 6 3 5 2 1000 100 200 99 [] st0 (by decide) (by decide)).1

/-- C5: a `ClientResume` whose resume token does not decrypt under the
listener's `token_key` is silently dropped: no reply, no output, the state is
untouched; in particular a token encrypted under any other key fails to
decrypt. -/
theorem c5_resume_bad_token_dropped (cfg : ListenerCfg) (s2cKey addr sh : Nat)
    (tok : EncToken) (st : ListenerState)
    (hdec : TokenInfo.decrypt cfg.tokenKey tok = none) :
    handleFrame cfg s2cKey addr (.ClientResume tok sh) st = ⟨st, [], .cont⟩ ∧
    ∀ (k k2 n : Nat) (ti : TokenInfo), k ≠ k2 →
      TokenInfo.decrypt k2 (TokenInfo.encrypt ti k n) = none := by
  constructor
  · simp [handleFrame, hdec]
  · intro k k2 n ti hne
    simp [TokenInfo.decrypt, TokenInfo.encrypt, hne]

/-- C5 witness: a token encrypted under key 8 is dropped by a listener whose
token key is 9. -/
theorem c5_witness :
    handleFrame cfg0 6 3 (.ClientResume (TokenInfo.encrypt ti0 8 1) 0) st0 =
      ⟨st0, [], .cont⟩ :=
  (c5_resume_bad_token_dropped cfg0 6 3 0 (TokenInfo.encrypt ti0 8 1) st0 (by decide)).1

/-- C7: decrypting a resume token with the key it was encrypted under returns
the original `TokenInfo`, for every key, nonce and token. -/
theorem c7_token_roundtrip (k n : Nat) (ti : TokenInfo) :
    TokenInfo.decrypt k (TokenInfo.encrypt ti k n) = some ti := by
  simp [TokenInfo.decrypt, TokenInfo.encrypt]

/-- C3: a fresh `ClientHello` with an accepted version gets exactly one
`ServerHello` reply carrying the server's long public key, the public key of
the freshly drawn ephemeral secret and the `TokenInfo` encrypted under
`token_key`; the reply is encrypted under the first s2c cookie key and padded
to 1000 bytes, the session table is unchanged, no session is emitted and the
actor keeps running. -/
theorem c3_hello_stateless_reply (cfg : ListenerCfg) (st : ListenerState)
    (addr k n p lpk epk v s0 : Nat) (srest : List Nat)
    (hs2c : cfg.s2c = s0 :: srest)
    (hk : k ∈ cfg.c2s)
    (hv : v = 1 ∨ v = 2 ∨ v = 3)
    (hfresh : Buffer.enc k n p (.ClientHello lpk epk v) ∉ st.filter)
    (hlook : st.table.lookupTok addr = none) :
    processItem cfg st (.enc k n p (.ClientHello lpk epk v)) addr =
      ({ st with filter := Buffer.enc k n p (.ClientHello lpk epk v) :: st.filter,
                 freshCtr := st.freshCtr + 3 },
       [.sentReply addr (.enc s0 (st.freshCtr + 2) 1000
          (.ServerHello (pubOf cfg.longSk) (pubOf st.freshCtr)
            (TokenInfo.encrypt
              ⟨tripleEcdh cfg.longSk st.freshCtr lpk epk, cfg.now, v⟩
              cfg.tokenKey (st.freshCtr + 1))))],
       false) := by
  have hnv : ¬(v ≠ 1 ∧ v ≠ 2 ∧ v ≠ 3) := by
    rcases hv with h | h | h <;> simp [h]
  simp only [processItem, hlook, hs2c, List.headD]
  rw [processKeys_hit cfg s0 addr k n p (.ClientHello lpk epk v) cfg.c2s st hk hfresh]
  simp [handleFrame, hnv, freshDraw, Ctl.isTerm]

/-- C3 witness: the stateless hello reply at a concrete input. -/
theorem c3_witness :
    processItem cfg0 st0 (.enc 5 1 1000 (.ClientHello 100 200 3)) 3 =
      ({ st0 with filter := Buffer.enc 5 1 1000 (.ClientHello 100 200 3) :: st0.filter,
                  freshCtr := st0.freshCtr + 3 },
       [.sentReply 3 (.enc 6 (st0.freshCtr + 2) 1000
          (.ServerHello (pubOf cfg0.longSk) (pubOf st0.freshCtr)
            (TokenInfo.encrypt
              ⟨tripleEcdh cfg0.longSk st0.freshCtr 100 200, cfg0.now, 3⟩
              cfg0.tokenKey (st0.freshCtr + 1))))],
       false) :=
  c3_hello_stateless_reply cfg0 st0 3 5 1 1000 100 200 3 6 [] rfl (by decide)
    (by decide) (by decide) rfl

/-- C9: resume tokens never expire: for every issue time, however old, a
token validly encrypted under the listener's `token_key` decrypts to its
original `TokenInfo`, and a `ClientResume` carrying it while the token is not
yet in the session table creates and emits a session whose keys and version
are independent of the issue time. -/
theorem c9_token_no_expiry (cfg : ListenerCfg) (s2cKey addr sh sk v n tau : Nat)
    (st : ListenerState)
    (hopen : cfg.acceptClosed = false)
    (hnew : alget (TokenInfo.encrypt ⟨sk, tau, v⟩ cfg.tokenKey n) st.table.byToken = none) :
    TokenInfo.decrypt cfg.tokenKey (TokenInfo.encrypt ⟨sk, tau, v⟩ cfg.tokenKey n) =
      some ⟨sk, tau, v⟩ ∧
    (handleFrame cfg s2cKey addr
        (.ClientResume (TokenInfo.encrypt ⟨sk, tau, v⟩ cfg.tokenKey n) sh) st).out =
      [.emitSession (TokenInfo.encrypt ⟨sk, tau, v⟩ cfg.tokenKey n)
        ⟨keyedHash UP_KEY sk, keyedHash DN_KEY sk, v⟩] := by
  constructor
  · simp [TokenInfo.decrypt, TokenInfo.encrypt]
  · simp only [TokenInfo.encrypt] at hnew
    simp [handleFrame, TokenInfo.decrypt, TokenInfo.encrypt, SessionTable.rebind,
      SessionTable.newSess, hnew, hopen, alget_alset_self]

/-- C9 witness: a token issued at time 0 is accepted by a listener whose clock
is 1000. -/
theorem c9_witness :
    (handleFrame cfg0 6 3
        (.ClientResume (TokenInfo.encrypt ⟨77, 0, 3⟩ cfg0.tokenKey 5) 0) st0).out =
      [.emitSession (TokenInfo.encrypt ⟨77, 0, 3⟩ cfg0.tokenKey 5)
        ⟨keyedHash UP_KEY 77, keyedHash DN_KEY 77, 3⟩] :=
  (c9_token_no_expiry cfg0 6 3 0 77 3 5 0 st0 rfl (by decide)).2

/-- C10: with the accept side dropped, the first buffer that drives a new
session creation makes `accepted.try_send` fail and the actor terminate: the
batch result is flagged terminated, is independent of all later items (they
are never examined), and emits no session. -/
theorem c10_accept_closed_terminates (cfg : ListenerCfg) (st : ListenerState)
    (addr k n p sh : Nat) (tok : EncToken) (ti : TokenInfo)
    (rest : List (Buffer × Nat))
    (hclosed : cfg.acceptClosed = true)
    (hk : k ∈ cfg.c2s)
    (hdec : TokenInfo.decrypt cfg.tokenKey tok = some ti)
    (hfresh : Buffer.enc k n p (.ClientResume tok sh) ∉ st.filter)
    (hnew : alget tok st.table.byToken = none)
    (hlook : st.table.lookupTok addr = none) :
    (processItems cfg st ((Buffer.enc k n p (.ClientResume tok sh), addr) :: rest)).2.2
      = true ∧
    processItems cfg st ((Buffer.enc k n p (.ClientResume tok sh), addr) :: rest) =
      processItems cfg st [(Buffer.enc k n p (.ClientResume tok sh), addr)] ∧
    countEmits
      (processItems cfg st ((Buffer.enc k n p (.ClientResume tok sh), addr) :: rest)).2.1
      = 0 := by
  have hkeys := processKeys_hit cfg (cfg.s2c.headD 0) addr k n p (.ClientResume tok sh)
    cfg.c2s st hk hfresh
  have hout : (handleFrame cfg (cfg.s2c.headD 0) addr (.ClientResume tok sh)
      { st with filter := Buffer.enc k n p (.ClientResume tok sh) :: st.filter }).out = []
      ∧ (handleFrame cfg (cfg.s2c.headD 0) addr (.ClientResume tok sh)
      { st with filter := Buffer.enc k n p (.ClientResume tok sh) :: st.filter }).ctl
      = .term := by
    simp [handleFrame, hdec, SessionTable.rebind, hnew, hclosed]
  have hpi : processItem cfg st (.enc k n p (.ClientResume tok sh)) addr =
      ((handleFrame cfg (cfg.s2c.headD 0) addr (.ClientResume tok sh)
        { st with filter := Buffer.enc k n p (.ClientResume tok sh) :: st.filter }).st,
       [], true) := by
    simp only [processItem, hlook]
    rw [hkeys, hout.1, hout.2]
    rfl
  refine ⟨?_, ?_, ?_⟩ <;> simp [processItems, hpi, countEmits]

/-- C10 witness: with a dropped accept side, a batch of two resume buffers
terminates on the first and never reaches the second. -/
theorem c10_witness :
    (processItems cfg0closed st0 ((Buffer.enc 5 0 1000 (.ClientResume tok0 0), 3)
        :: [(bres 1, 4)])).2.2 = true :=
  (c10_accept_closed_terminates cfg0closed st0 3 5 0 1000 0 tok0 ti0 [(bres 1, 4)]
    rfl (by decide) (by decide) (by decide) rfl rfl).1

/-- C6: when the source address maps to a live session, the buffer is
delivered into that session's bounded input queue non-blockingly (appended
below capacity 1000, dropped when full, the entry otherwise untouched); the
fallthrough limiter permits exactly while fewer than 5 checks have been used
for that address; when it refuses, only the delivery and the limiter counter
change; when it permits, the handshake decode path additionally runs on the
same buffer. -/
theorem c6_live_session_fallthrough (cfg : ListenerCfg) (st : ListenerState)
    (b : Buffer) (addr : Nat) (tok : EncToken) (e : Entry)
    (hlook : st.table.lookupTok addr = some tok)
    (he : alget tok st.table.byToken = some e) :
    alget tok (st.table.deliver tok b).byToken =
      some ({ e with
        queue := if e.queue.length < 1000 then e.queue ++ [b] else e.queue }) ∧
    ((limiterCheck st.limiter addr).1 = true ↔ (alget addr st.limiter).getD 0 < 5) ∧
    ((limiterCheck st.limiter addr).1 = false →
      processItem cfg st b addr =
        ({ st with table := st.table.deliver tok b,
                   limiter := (limiterCheck st.limiter addr).2 }, [], false)) ∧
    ((limiterCheck st.limiter addr).1 = true →
      processItem cfg st b addr =
        processKeys cfg (cfg.s2c.headD 0) addr b cfg.c2s
          ({ st with table := st.table.deliver tok b,
                     limiter := (limiterCheck st.limiter addr).2 })) := by
  refine ⟨?_, ?_, ?_, ?_⟩
  · simp [SessionTable.deliver, he, alget_alset_self]
  · simp only [limiterCheck]
    by_cases h : (alget addr st.limiter).getD 0 < 5 <;> simp [h]
  · intro h
    rcases hlc : limiterCheck st.limiter addr with ⟨ok, lim⟩
    rw [hlc] at h
    simp only at h
    subst h
    simp [processItem, hlook, hlc]
  · intro h
    rcases hlc : limiterCheck st.limiter addr with ⟨ok, lim⟩
    rw [hlc] at h
    simp only at h
    subst h
    simp [processItem, hlook, hlc]

/-- C6 witness: delivery plus permitted fallthrough at the concrete
live-session state. -/
theorem c6_witness :
    processItem cfg0 stWith0 (bres 1) 3 =
      processKeys cfg0 (cfg0.s2c.headD 0) 3 (bres 1) cfg0.c2s
        ({ stWith0 with table := stWith0.table.deliver tok0 (bres 1),
                        limiter := (limiterCheck stWith0.limiter 3).2 }) :=
  (c6_live_session_fallthrough cfg0 stWith0 (bres 1) 3 tok0 entry0
    (by decide) (by decide)).2.2.2 (by decide)

/-- Every reply a frame dispatch produces is encrypted under the s2c key it
was handed. -/
theorem handleFrame_replies (cfg : ListenerCfg) (s2cKey addr : Nat) (f : HandshakeFrame)
    (st : ListenerState) :
    ∀ o ∈ (handleFrame cfg s2cKey addr f st).out, replyKeyOk s2cKey o := by
  intro o ho
  cases f with
  | ClientHello lpk epk v =>
      by_cases h : v ≠ 1 ∧ v ≠ 2 ∧ v ≠ 3
      · simp [handleFrame, h] at ho
      · simp [handleFrame, h, freshDraw] at ho
        simp [ho, replyKeyOk, Buffer.keyOf]
  | ClientResume tok sh =>
      cases hdec : TokenInfo.decrypt cfg.tokenKey tok with
      | none => simp [handleFrame, hdec] at ho
      | some ti =>
          simp only [handleFrame, hdec] at ho
          rcases hr : st.table.rebind addr sh tok with ⟨hit, t2⟩
          rw [hr] at ho
          cases hit with
          | true =>
              simp at ho
              simp [ho, replyKeyOk]
          | false =>
              by_cases hc : cfg.acceptClosed
              · simp [hc] at ho
              · simp [hc] at ho
                simp [ho, replyKeyOk]
  | ServerHello lpk epk tk => simp [handleFrame] at ho
  | Other t => simp [handleFrame] at ho

/-- Every reply the candidate-key loop produces is encrypted under the s2c
key it was handed. -/
theorem processKeys_replies (cfg : ListenerCfg) (s2cKey addr : Nat) (b : Buffer)
    (keys : List Nat) (st : ListenerState) :
    ∀ o ∈ (processKeys cfg s2cKey addr b keys st).2.1, replyKeyOk s2cKey o := by
  induction keys generalizing st with
  | nil => simp [processKeys]
  | cons k rest ih =>
      intro o ho
      simp only [processKeys] at ho
      cases hd : padDecryptV1 k b with
      | none =>
          rw [hd] at ho
          exact ih st o ho
      | some f =>
          rw [hd] at ho
          rcases hrc : recentCheck st.filter b with ⟨isNew, filt⟩
          rw [hrc] at ho
          cases isNew with
          | false =>
              simp only [Bool.false_eq_true, if_neg] at ho
              exact ih _ o ho
          | true =>
              simp only [if_pos] at ho
              cases hc : (handleFrame cfg s2cKey addr f
                  { st with filter := filt }).ctl with
              | brk =>
                  rw [hc] at ho
                  exact handleFrame_replies cfg s2cKey addr f _ o ho
              | term =>
                  rw [hc] at ho
                  exact handleFrame_replies cfg s2cKey addr f _ o ho
              | cont =>
                  rw [hc] at ho
                  rcases hpk : processKeys cfg s2cKey addr b rest
                      (handleFrame cfg s2cKey addr f { st with filter := filt }).st
                    with ⟨st2, out2, t2⟩
                  rw [hpk] at ho
                  simp only [List.mem_append] at ho
                  cases ho with
                  | inl hin => exact handleFrame_replies cfg s2cKey addr f _ o hin
                  | inr hin =>
                      have := ih (handleFrame cfg s2cKey addr f
                        { st with filter := filt }).st o
                      rw [hpk] at this
                      exact this hin

/-- C8: the handshake decode path tries every c2s cookie key — a buffer
encrypted under any key of `generate_c2s()` is decrypted and recorded by the
recent filter wherever that key sits in the sequence — while every reply is
encrypted under the single first key of `generate_s2c()`. -/
theorem c8_all_keys_first_s2c (cfg : ListenerCfg) (st : ListenerState) (b : Buffer)
    (addr s0 : Nat) (srest : List Nat) (hs2c : cfg.s2c = s0 :: srest) :
    (∀ ad wire, Output.sentReply ad wire ∈ (processItem cfg st b addr).2.1 →
      wire.keyOf = s0) ∧
    (∀ k n p f, b = Buffer.enc k n p f → k ∈ cfg.c2s → b ∉ st.filter →
      st.table.lookupTok addr = none →
      b ∈ (processItem cfg st b addr).1.filter) := by
  constructor
  · intro ad wire hmem
    cases hl : st.table.lookupTok addr with
    | none =>
        simp only [processItem, hl, hs2c, List.headD] at hmem
        have h := processKeys_replies cfg s0 addr b cfg.c2s st (Output.sentReply ad wire) hmem
        simpa [replyKeyOk] using h
    | some tok =>
        simp only [processItem, hl, hs2c, List.headD] at hmem
        rcases hlc : limiterCheck st.limiter addr with ⟨ok, lim⟩
        rw [hlc] at hmem
        cases ok with
        | false => simp at hmem
        | true =>
            simp only [if_pos] at hmem
            have h := processKeys_replies cfg s0 addr b cfg.c2s
              ({ st with table := st.table.deliver tok b, limiter := lim })
              (Output.sentReply ad wire) hmem
            simpa [replyKeyOk] using h
  · intro k n p f hb hk hf hl
    subst hb
    simp only [processItem, hl]
    rw [processKeys_hit cfg (cfg.s2c.headD 0) addr k n p f cfg.c2s st hk hf]
    rw [handleFrame_filter]
    exact List.mem_cons_self _ _

/-- C8 witness: a resume buffer under the sole c2s key lands in the recent
filter, showing the decode was attempted. -/
theorem c8_witness :
    bres 0 ∈ (processItem cfg0 st0 (bres 0) 3).1.filter :=
  (c8_all_keys_first_s2c cfg0 st0 (bres 0) 3 6 [] rfl).2 5 0 1000
    (.ClientResume tok0 0) rfl (by decide) (by decide) rfl

end Sosistab
